import Mathlib

/-!
Verification development for the FC26 sniping engine
(`src/ea/sniper.py` and `src/ea/client.py`).

The Python source is shallowly embedded: pure helpers become Lean
functions, the stateful search-and-buy cycle becomes an explicit
recursion over the candidate list that threads the statistics record and
emits a trace of externally visible events (balance checks, buy calls,
notifications, sleeps).  Python `int` is modelled as `Int` (with `//`
as `Int.fdiv`, which is floor division exactly like Python), `float`
durations as `ℚ`, and fallible remote calls as `Except` values supplied
by oracles.
-/

set_option maxHeartbeats 1000000

/-- Run states of the sniper (`SniperState` enum in the source). -/
inductive SniperState
  | stopped
  | running
  | paused
  | error
deriving DecidableEq, Repr

/-- Search filter passed to the market client (`SearchFilter` dataclass).
Its fields are opaque to every property proved here. -/
structure SearchFilter where
  player_id : Option Int := none
  min_price : Option Int := none
  max_price : Option Int := none
  min_buy : Option Int := none
  max_buy : Option Int := none
  quality : Option String := none
  pos : Option String := none
  nation : Option Int := none
  league : Option Int := none
  club : Option Int := none
  rarity_id : Option Int := none
deriving DecidableEq, Repr

/-- A market listing (`Player` dataclass in `client.py`). -/
structure Player where
  trade_id : Int
  asset_id : Int := 0
  resource_id : Int := 0
  name : String := "Unknown"
  rating : Int := 0
  pos : String := ""
  buy_now_price : Int
  current_bid : Int := 0
  expires : Int := 0
  seller_established : Bool := false
deriving DecidableEq, Repr

/-- Sniper configuration (`SniperConfig` dataclass), defaults as in source. -/
structure SniperConfig where
  search_interval : ℚ := 3
  buy_delay : ℚ := 1/5
  max_purchases : Nat := 100
  max_active_sales : Nat := 50
  min_coins_reserve : Int := 10000
  auto_sell : Bool := true
  sell_markup : ℚ := 11/10
  sell_duration : Nat := 3600
  pause_after_purchases : Nat := 5
  pause_duration : ℚ := 30
  max_searches_per_hour : Nat := 500
  auto_relist : Bool := true
  relist_interval : ℚ := 300
deriving DecidableEq, Repr

/-- Sniper run statistics (`SniperStats` dataclass). -/
structure SniperStats where
  started_at : Option Int := none
  total_searches : Nat := 0
  total_purchases : Nat := 0
  total_sales : Nat := 0
  total_spent : Int := 0
  total_earned : Int := 0
  failed_purchases : Nat := 0
deriving DecidableEq, Repr

/-- `SniperStats.profit` property: `total_earned - total_spent`. -/
def SniperStats.profit (s : SniperStats) : Int :=
  s.total_earned - s.total_spent

/-- `SniperStats.roi` property: `0.0` when nothing was spent, otherwise
`(profit / total_spent) * 100` (a percentage). -/
def SniperStats.roi (s : SniperStats) : ℚ :=
  if s.total_spent = 0 then 0
  else ((s.profit : ℚ) / (s.total_spent : ℚ)) * 100

/-- A sniping target (`SnipeTarget` dataclass). -/
structure SnipeTarget where
  name : String
  filter : SearchFilter := {}
  max_buy_price : Int
  sell_price : Option Int := none
  enabled : Bool := true
  priority : Int := 1
  searches : Nat := 0
  found : Nat := 0
  bought : Nat := 0
deriving DecidableEq, Repr

namespace Sniper

/-- `Sniper._round_price`: round a price down to EA's allowed step for its
magnitude tier.  Python `//` is floor division, hence `Int.fdiv`. -/
def round_price (price : Int) : Int :=
  if price < 1000 then (Int.fdiv price 50) * 50
  else if price < 10000 then (Int.fdiv price 100) * 100
  else if price < 50000 then (Int.fdiv price 250) * 250
  else if price < 100000 then (Int.fdiv price 500) * 500
  else (Int.fdiv price 1000) * 1000

end Sniper

/-- The price step allowed by the external market for a price's magnitude
tier, following the spec's step table (50 below 1000; 100 below 10000;
250 below 50000; 500 below 100000; 1000 at or above 100000), with each
boundary belonging to the larger-step tier.  Used only to compare
`Sniper.round_price` against the spec's wording. -/
def specStep (p : Int) : Int :=
  if p < 1000 then 50
  else if p < 10000 then 100
  else if p < 50000 then 250
  else if p < 100000 then 500
  else 1000

/-- Concrete statistics record with earnings three times the spend. -/
def statsA : SniperStats := { total_spent := 100, total_earned := 300 }

/-- Concrete statistics record with earnings equal to the spend. -/
def statsB : SniperStats := { total_spent := 100, total_earned := 100 }

/-- Error taxonomy of `EAClient` (`EAError` subclasses in `client.py`),
as raised by `EAClient._request` depending on the HTTP status. -/
inductive EAErrKind
  | authExpired
  | captchaRequired
  | rateLimited
  | transferBanned
  | network
  | generic
deriving DecidableEq, Repr

namespace EAClient

/-- `EAClient.buy_now`: issue the bid request and report success iff the
response carries `auctionInfo`.  The whole body sits in a catch-all
exception handler that returns `False`, so the outcome of the underlying
request (modelled as an `Except` supplied by the caller, the response
abstracted to whether `auctionInfo` is present) never escapes as an
exception. -/
def buy_now (reqResult : Except EAErrKind Bool) : Bool :=
  match reqResult with
  | .ok hasAuctionInfo => hasAuctionInfo
  | .error _ => false

end EAClient

/-- Externally visible actions of one search-and-buy cycle and of one
search-loop iteration.  Buy-related events carry the index of the
candidate attempt they belong to. -/
inductive Ev
  | getCredits (step : Nat) (coins : Int)
  | buyNow (step : Nat) (tradeId : Int) (price : Int)
  | notifyPurchase (tradeId : Int) (price : Int)
  | autoSell (tradeId : Int)
  | sleepBuyDelay (d : ℚ)
  | sleepPause (d : ℚ)
  | sleepSearchInterval (d : ℚ)
deriving DecidableEq, Repr

/-- Result of one `_search_and_buy` cycle: the event trace, the returned
boolean, and the updated statistics and target. -/
structure CycleResult where
  events : List Ev
  bought : Bool
  stats : SniperStats
  target : SnipeTarget
deriving DecidableEq, Repr

namespace Sniper

/-- The price filter of `_search_and_buy`: keep listings whose buy-now
price is positive and at most the target's ceiling. -/
def snipeListings (players : List Player) (maxPrice : Int) : List Player :=
  players.filter fun p =>
    decide (0 < p.buy_now_price) && decide (p.buy_now_price ≤ maxPrice)

/-- The candidate loop of `_search_and_buy` (`for player in snipeable`).
For each candidate, in market order: re-read the balance (`bal` gives the
balance at each attempt index); if it is below price + reserve, break out
of the loop entirely; otherwise call `EAClient.buy_now` on the outcome of
the underlying request (`buyReq` gives that outcome for each attempt
index).  On success update the purchase statistics, fire the purchase
callback when registered, optionally auto-sell, and return true
immediately; on failure count a failed purchase, sleep `buy_delay`,
and move to the next candidate. -/
def buyLoop (cfg : SniperConfig) (hasOnPurchase : Bool) (bal : Nat → Int)
    (buyReq : Nat → Except EAErrKind Bool) :
    List Player → Nat → SniperStats → SnipeTarget → CycleResult
  | [], _, st, tgt => ⟨[], false, st, tgt⟩
  | p :: rest, k, st, tgt =>
    if bal k < p.buy_now_price + cfg.min_coins_reserve then
      ⟨[.getCredits k (bal k)], false, st, tgt⟩
    else if EAClient.buy_now (buyReq k) then
      ⟨[.getCredits k (bal k), .buyNow k p.trade_id p.buy_now_price]
          ++ (if hasOnPurchase then [.notifyPurchase p.trade_id p.buy_now_price] else [])
          ++ (if cfg.auto_sell then [.autoSell p.trade_id] else []),
        true,
        { st with
          total_purchases := st.total_purchases + 1,
          total_spent := st.total_spent + p.buy_now_price },
        { tgt with bought := tgt.bought + 1 }⟩
    else
      let r := buyLoop cfg hasOnPurchase bal buyReq rest (k + 1)
        { st with failed_purchases := st.failed_purchases + 1 } tgt
      ⟨.getCredits k (bal k) :: .buyNow k p.trade_id p.buy_now_price
          :: .sleepBuyDelay cfg.buy_delay :: r.events,
        r.bought, r.stats, r.target⟩

/-- `Sniper._search_and_buy` for one target: bump the search counters,
take the listings returned by the market (`players`), return `False` at
once when there are none, otherwise filter by price, bump the target's
`found` counter when any survive, and run the candidate loop. -/
def search_and_buy (cfg : SniperConfig) (hasOnPurchase : Bool)
    (bal : Nat → Int) (buyReq : Nat → Except EAErrKind Bool)
    (players : List Player) (st : SniperStats) (tgt : SnipeTarget) :
    CycleResult :=
  let tgt1 : SnipeTarget := { tgt with searches := tgt.searches + 1 }
  let st1 : SniperStats := { st with total_searches := st.total_searches + 1 }
  if players.isEmpty then ⟨[], false, st1, tgt1⟩
  else
    let snipeable := snipeListings players tgt1.max_buy_price
    let tgt2 : SnipeTarget :=
      if snipeable.isEmpty then tgt1
      else { tgt1 with found := tgt1.found + snipeable.length }
    buyLoop cfg hasOnPurchase bal buyReq snipeable 0 st1 tgt2

end Sniper

/-- Result of one target iteration of `_search_loop`: events of the
cycle plus the anti-ban pause handling and the inter-search sleep, the
updated statistics and target, and the new consecutive-purchase streak. -/
structure StepResult where
  events : List Ev
  bought : Bool
  stats : SniperStats
  target : SnipeTarget
  consecutive : Nat
deriving DecidableEq, Repr

namespace Sniper

/-- One target iteration of `_search_loop` (lines 217 to 229 of
`sniper.py`): run `_search_and_buy`; on a purchase increment the
consecutive-purchase streak and, if it reached `pause_after_purchases`,
sleep `pause_duration` once and reset the streak to zero; finally sleep
`search_interval`. -/
def searchLoopStep (cfg : SniperConfig) (hasOnPurchase : Bool)
    (bal : Nat → Int) (buyReq : Nat → Except EAErrKind Bool)
    (players : List Player) (st : SniperStats) (tgt : SnipeTarget)
    (consecutive : Nat) : StepResult :=
  let r := search_and_buy cfg hasOnPurchase bal buyReq players st tgt
  if r.bought then
    if cfg.pause_after_purchases ≤ consecutive + 1 then
      ⟨r.events ++ [.sleepPause cfg.pause_duration,
          .sleepSearchInterval cfg.search_interval],
        r.bought, r.stats, r.target, 0⟩
    else
      ⟨r.events ++ [.sleepSearchInterval cfg.search_interval],
        r.bought, r.stats, r.target, consecutive + 1⟩
  else
    ⟨r.events ++ [.sleepSearchInterval cfg.search_interval],
      r.bought, r.stats, r.target, consecutive⟩

end Sniper

/-- Number of buy calls recorded in an event trace. -/
def numBuys (evs : List Ev) : Nat :=
  evs.countP fun e =>
    match e with
    | .buyNow _ _ _ => true
    | _ => false

/-- The mutable state of a `Sniper` object that `pause` and `resume`
touch or could touch: run state, statistics, targets, the two optional
loop task handles, and the stop flag. -/
structure SniperM where
  state : SniperState
  stats : SniperStats
  targets : List SnipeTarget
  search_task : Option Unit
  relist_task : Option Unit
  stop_requested : Bool
deriving DecidableEq, Repr

namespace Sniper

/-- `Sniper.pause`: unconditionally set the state to `PAUSED` (the body
only assigns `self.state` and logs). -/
def pause (s : SniperM) : SniperM :=
  { s with state := .paused }

/-- `Sniper.resume`: unconditionally set the state to `RUNNING` (the
body only assigns `self.state` and logs). -/
def resume (s : SniperM) : SniperM :=
  { s with state := .running }

end Sniper

/-- Registry operations on the target list: `add_target`,
`remove_target`, `clear_targets`. -/
inductive RegOp
  | add (t : SnipeTarget)
  | remove (name : String)
  | clear
deriving DecidableEq, Repr

/-- Stable insertion into a descending-key list: the new element goes
after every element whose key is at least its own. -/
def insertDesc {α : Type} (key : α → Int) (x : α) : List α → List α
  | [] => [x]
  | a :: t => if key x ≤ key a then a :: insertDesc key x t else x :: a :: t

/-- Stable descending sort by key: insertion left to right, so equal-key
elements keep their original relative order.  This is the unique
stable-sort result, hence exactly what Python's
`list.sort(key=lambda t: t.priority, reverse=True)` produces. -/
def sortDesc {α : Type} (key : α → Int) (l : List α) : List α :=
  l.foldl (fun acc x => insertDesc key x acc) []

namespace Sniper

/-- `Sniper.add_target`: append, then stable-sort the list by descending
priority. -/
def add_target (ts : List SnipeTarget) (t : SnipeTarget) : List SnipeTarget :=
  sortDesc (fun u => u.priority) (ts ++ [t])

/-- `Sniper.remove_target`: keep only targets whose name differs. -/
def remove_target (ts : List SnipeTarget) (name : String) : List SnipeTarget :=
  ts.filter fun t => t.name != name

/-- `Sniper.clear_targets`: empty the list. -/
def clear_targets (_ts : List SnipeTarget) : List SnipeTarget := []

end Sniper

/-- Apply one registry operation to the target list. -/
def applyOp (ts : List SnipeTarget) : RegOp → List SnipeTarget
  | .add t => Sniper.add_target ts t
  | .remove n => Sniper.remove_target ts n
  | .clear => Sniper.clear_targets ts

/-- Apply a sequence of registry operations to the initially empty
registry. -/
def applyOps (ops : List RegOp) : List SnipeTarget :=
  ops.foldl applyOp []

/-- Instrumented registry: every added target is tagged with a ghost
insertion index (the running counter in the first component) so that
insertion order is expressible; the operations act on the payloads
exactly as `applyOp` does. -/
def applyOpT : Nat × List (Nat × SnipeTarget) → RegOp → Nat × List (Nat × SnipeTarget)
  | (n, ts), .add t => (n + 1, sortDesc (fun u => u.2.priority) (ts ++ [(n, t)]))
  | (n, ts), .remove name => (n, ts.filter fun u => u.2.name != name)
  | (n, ts), .clear => (n, [])

/-- Instrumented run of a sequence of registry operations. -/
def applyOpsT (ops : List RegOp) : Nat × List (Nat × SnipeTarget) :=
  ops.foldl applyOpT (0, [])

/-- The registry order on tagged targets: strictly higher priority
first, ties resolved by insertion index. -/
def regOrd (a b : Nat × SnipeTarget) : Prop :=
  b.2.priority < a.2.priority ∨ (a.2.priority = b.2.priority ∧ a.1 < b.1)

/-- Invariant of the instrumented registry: the list is in registry
order and every ghost tag is below the running counter. -/
def RegInv (s : Nat × List (Nat × SnipeTarget)) : Prop :=
  s.2.Pairwise regOrd ∧ ∀ y ∈ s.2, y.1 < s.1

/-- Example target A of claim C7 (priority 1). -/
def targetA : SnipeTarget := { name := "A", max_buy_price := 1000, priority := 1 }

/-- Example target B of claim C7 (priority 5). -/
def targetB : SnipeTarget := { name := "B", max_buy_price := 1000, priority := 5 }

/-- Example target C of claim C7 (priority 5). -/
def targetC : SnipeTarget := { name := "C", max_buy_price := 1000, priority := 5 }

/-- Concrete listing used by the cycle witnesses. -/
def wPlayer : Player := { trade_id := 7, buy_now_price := 800 }

/-- Concrete target used by the cycle witnesses. -/
def wTarget : SnipeTarget := { name := "W", max_buy_price := 1000 }

/-- Concrete fresh statistics used by the cycle witnesses. -/
def wStats : SniperStats := {}

/-- Concrete configuration used by the cycle witnesses: pause after
every purchase. -/
def wCfg : SniperConfig := { pause_after_purchases := 1 }

/-- Concrete balance oracle used by the cycle witnesses. -/
def wBal : Nat → Int := fun _ => 100000

/-- Concrete buy-request oracle whose requests always succeed. -/
def wReqOk : Nat → Except EAErrKind Bool := fun _ => Except.ok true

section RoundPriceLemmas

/-- Floor division by a positive divisor never exceeds the dividend. -/
theorem ediv_mul_le_self {d : Int} (hd : 0 < d) (p : Int) : p / d * d ≤ p := by
  have h := Int.ediv_add_emod p d
  have h2 := Int.emod_nonneg p (ne_of_gt hd)
  nlinarith [h, h2]

theorem lt_ediv_mul_add {d : Int} (hd : 0 < d) (p : Int) : p < p / d * d + d := by
  have h := Int.ediv_add_emod p d
  have h2 := Int.emod_lt_of_pos p hd
  nlinarith [h, h2]

theorem le_ediv_mul_of_le {d c : Int} (hd : 0 < d) (hdc : d ∣ c) (p : Int)
    (h : c ≤ p) : c ≤ p / d * d := by
  have h1 : c / d ≤ p / d := Int.ediv_le_ediv hd h
  have h2 : c / d * d = c := Int.ediv_mul_cancel hdc
  nlinarith [h1, h2]

theorem fdiv_eq_ediv_of_pos {d : Int} (hd : 0 < d) (p : Int) :
    Int.fdiv p d = p / d :=
  Int.fdiv_eq_ediv p (le_of_lt hd)

theorem round_price_tier1 {p : Int} (h : p < 1000) :
    Sniper.round_price p = p / 50 * 50 := by
  unfold Sniper.round_price
  rw [if_pos h, fdiv_eq_ediv_of_pos (by norm_num)]

theorem round_price_tier2 {p : Int} (h1 : 1000 ≤ p) (h2 : p < 10000) :
    Sniper.round_price p = p / 100 * 100 := by
  unfold Sniper.round_price
  rw [if_neg (by omega), if_pos h2, fdiv_eq_ediv_of_pos (by norm_num)]

theorem round_price_tier3 {p : Int} (h1 : 10000 ≤ p) (h2 : p < 50000) :
    Sniper.round_price p = p / 250 * 250 := by
  unfold Sniper.round_price
  rw [if_neg (by omega), if_neg (by omega), if_pos h2,
    fdiv_eq_ediv_of_pos (by norm_num)]

theorem round_price_tier4 {p : Int} (h1 : 50000 ≤ p) (h2 : p < 100000) :
    Sniper.round_price p = p / 500 * 500 := by
  unfold Sniper.round_price
  rw [if_neg (by omega), if_neg (by omega), if_neg (by omega), if_pos h2,
    fdiv_eq_ediv_of_pos (by norm_num)]

theorem round_price_tier5 {p : Int} (h1 : 100000 ≤ p) :
    Sniper.round_price p = p / 1000 * 1000 := by
  unfold Sniper.round_price
  rw [if_neg (by omega), if_neg (by omega), if_neg (by omega),
    if_neg (by omega), fdiv_eq_ediv_of_pos (by norm_num)]

end RoundPriceLemmas

/-- Claim C3 counterexample: the claim (and spec) say 60,400 rounds to
60,500, but the code floors to the 500 step, giving 60,000. -/
theorem c3_counterexample :
    Sniper.round_price 60400 = 60000 ∧ (60000 : Int) ≠ 60500 := by
  constructor
  · decide
  · decide

/-- Claim C3 (amended): for every non-negative price, `round_price`
returns the greatest multiple of the tier's step that is at most the
price, with tier boundaries 1000, 10000, 50000, 100000 belonging to the
larger-step tier (as encoded by `specStep`); in particular 1,234 rounds
to 1,200 and 60,400 rounds to 60,000 (not 60,500: the code rounds down). -/
theorem c3_round_price_step_table (p : Int) (hp : 0 ≤ p) :
    specStep p ∣ Sniper.round_price p
  ∧ Sniper.round_price p ≤ p
  ∧ p < Sniper.round_price p + specStep p
  ∧ Sniper.round_price 1234 = 1200
  ∧ Sniper.round_price 60400 = 60000 := by
  have key : specStep p ∣ Sniper.round_price p ∧ Sniper.round_price p ≤ p
      ∧ p < Sniper.round_price p + specStep p := by
    by_cases h1 : p < 1000
    · have hs : specStep p = 50 := by simp [specStep, h1]
      rw [hs, round_price_tier1 h1]
      exact ⟨dvd_mul_left 50 (p / 50), ediv_mul_le_self (by norm_num) p,
        lt_ediv_mul_add (by norm_num) p⟩
    · by_cases h2 : p < 10000
      · have hs : specStep p = 100 := by simp [specStep, h1, h2]
        rw [hs, round_price_tier2 (by omega) h2]
        exact ⟨dvd_mul_left 100 (p / 100), ediv_mul_le_self (by norm_num) p,
          lt_ediv_mul_add (by norm_num) p⟩
      · by_cases h3 : p < 50000
        · have hs : specStep p = 250 := by simp [specStep, h1, h2, h3]
          rw [hs, round_price_tier3 (by omega) h3]
          exact ⟨dvd_mul_left 250 (p / 250), ediv_mul_le_self (by norm_num) p,
            lt_ediv_mul_add (by norm_num) p⟩
        · by_cases h4 : p < 100000
          · have hs : specStep p = 500 := by simp [specStep, h1, h2, h3, h4]
            rw [hs, round_price_tier4 (by omega) h4]
            exact ⟨dvd_mul_left 500 (p / 500), ediv_mul_le_self (by norm_num) p,
              lt_ediv_mul_add (by norm_num) p⟩
          · have hs : specStep p = 1000 := by simp [specStep, h1, h2, h3, h4]
            rw [hs, round_price_tier5 (by omega)]
            exact ⟨dvd_mul_left 1000 (p / 1000), ediv_mul_le_self (by norm_num) p,
              lt_ediv_mul_add (by norm_num) p⟩
  exact ⟨key.1, key.2.1, key.2.2, by decide, by decide⟩

/-- Claim C3 witness: the amended step-table theorem evaluated at 1234. -/
theorem c3_round_price_step_table_witness :
    (0 : Int) ≤ 1234
  ∧ (specStep 1234 ∣ Sniper.round_price 1234
     ∧ Sniper.round_price 1234 ≤ 1234
     ∧ (1234 : Int) < Sniper.round_price 1234 + specStep 1234
     ∧ Sniper.round_price 1234 = 1200
     ∧ Sniper.round_price 60400 = 60000) :=
  ⟨by decide, c3_round_price_step_table 1234 (by decide)⟩

/-- Claim C8: price rounding is idempotent on non-negative prices. -/
theorem c8_round_price_idempotent (p : Int) (hp : 0 ≤ p) :
    Sniper.round_price (Sniper.round_price p) = Sniper.round_price p := by
  by_cases h1 : p < 1000
  · rw [round_price_tier1 h1]
    have hle : p / 50 * 50 ≤ p := ediv_mul_le_self (by norm_num) p
    rw [round_price_tier1 (by omega)]
    exact Int.ediv_mul_cancel (dvd_mul_left 50 (p / 50))
  · by_cases h2 : p < 10000
    · rw [round_price_tier2 (by omega) h2]
      have hle : p / 100 * 100 ≤ p := ediv_mul_le_self (by norm_num) p
      have hge : (1000 : Int) ≤ p / 100 * 100 :=
        le_ediv_mul_of_le (by norm_num) (by norm_num) p (by omega)
      rw [round_price_tier2 (by omega) (by omega)]
      exact Int.ediv_mul_cancel (dvd_mul_left 100 (p / 100))
    · by_cases h3 : p < 50000
      · rw [round_price_tier3 (by omega) h3]
        have hle : p / 250 * 250 ≤ p := ediv_mul_le_self (by norm_num) p
        have hge : (10000 : Int) ≤ p / 250 * 250 :=
          le_ediv_mul_of_le (by norm_num) (by norm_num) p (by omega)
        rw [round_price_tier3 (by omega) (by omega)]
        exact Int.ediv_mul_cancel (dvd_mul_left 250 (p / 250))
      · by_cases h4 : p < 100000
        · rw [round_price_tier4 (by omega) h4]
          have hle : p / 500 * 500 ≤ p := ediv_mul_le_self (by norm_num) p
          have hge : (50000 : Int) ≤ p / 500 * 500 :=
            le_ediv_mul_of_le (by norm_num) (by norm_num) p (by omega)
          rw [round_price_tier4 (by omega) (by omega)]
          exact Int.ediv_mul_cancel (dvd_mul_left 500 (p / 500))
        · rw [@round_price_tier5 p (by omega)]
          have hge : (100000 : Int) ≤ p / 1000 * 1000 :=
            le_ediv_mul_of_le (by norm_num) (by norm_num) p (by omega)
          rw [round_price_tier5 (by omega)]
          exact Int.ediv_mul_cancel (dvd_mul_left 1000 (p / 1000))

/-- Claim C8 witness: idempotence evaluated at 1234. -/
theorem c8_round_price_idempotent_witness :
    (0 : Int) ≤ 1234
  ∧ Sniper.round_price (Sniper.round_price 1234) = Sniper.round_price 1234 :=
  ⟨by decide, c8_round_price_idempotent 1234 (by decide)⟩

/-- Claim C4 counterexample: `roi` is a percentage, not the plain ratio
(at spend 100 and earnings 300 it is 200, not 2), and `roi` is also 0
when profit is 0 while the spend is 100, so roi being 0 is not
equivalent to the spend being 0. -/
theorem c4_counterexample :
    SniperStats.roi statsA ≠ (SniperStats.profit statsA : ℚ) / ((statsA).total_spent : ℚ)
  ∧ SniperStats.roi statsB = 0
  ∧ (statsB).total_spent ≠ 0 := by
  refine ⟨?_, ?_, ?_⟩
  · norm_num [SniperStats.roi, SniperStats.profit, statsA]
  · norm_num [SniperStats.roi, SniperStats.profit, statsB]
  · norm_num [statsB]

/-- Claim C4 (amended): profit is earned minus spent; roi is the
percentage `(profit / spent) * 100` when spent is nonzero and 0 when
spent is 0; consequently roi is 0 exactly when spent is 0 or profit is 0. -/
theorem c4_profit_roi (s : SniperStats) :
    s.profit = s.total_earned - s.total_spent
  ∧ (s.total_spent = 0 → s.roi = 0)
  ∧ (s.total_spent ≠ 0 → s.roi = ((s.profit : ℚ) / (s.total_spent : ℚ)) * 100)
  ∧ (s.roi = 0 ↔ s.total_spent = 0 ∨ s.profit = 0) := by
  refine ⟨rfl, ?_, ?_, ?_⟩
  · intro h
    simp [SniperStats.roi, h]
  · intro h
    simp [SniperStats.roi, h]
  · unfold SniperStats.roi
    by_cases h : s.total_spent = 0
    · simp [h]
    · rw [if_neg h]
      rw [mul_eq_zero, div_eq_zero_iff]
      simp only [Int.cast_eq_zero]
      constructor
      · rintro ((hp | hs) | h100)
        · exact Or.inr hp
        · exact Or.inl hs
        · norm_num at h100
      · rintro (hs | hp)
        · exact absurd hs h
        · exact Or.inl (Or.inl hp)

/-- Claim C4 witness: the amended profit and roi facts evaluated on the
statistics record with spend 100 and earnings 300. -/
theorem c4_profit_roi_witness :
    SniperStats.profit statsA = (statsA).total_earned - (statsA).total_spent
  ∧ ((statsA).total_spent = 0 → SniperStats.roi statsA = 0)
  ∧ ((statsA).total_spent ≠ 0 →
      SniperStats.roi statsA = ((SniperStats.profit statsA : ℚ) / ((statsA).total_spent : ℚ)) * 100)
  ∧ (SniperStats.roi statsA = 0 ↔ (statsA).total_spent = 0 ∨ SniperStats.profit statsA = 0) :=
  c4_profit_roi statsA

/-- Claim C10: `pause` and `resume` are unconditional on the current
state: from any state (including `stopped` and `error`, with or without
loop tasks) `pause` yields `paused` and `resume` yields `running`, and
neither touches statistics, targets, task handles, or the stop flag. -/
theorem c10_pause_resume_unconditional (s : SniperM) :
    (Sniper.pause s).state = SniperState.paused
  ∧ (Sniper.resume s).state = SniperState.running
  ∧ (Sniper.pause s).stats = s.stats
  ∧ (Sniper.pause s).targets = s.targets
  ∧ (Sniper.pause s).search_task = s.search_task
  ∧ (Sniper.pause s).relist_task = s.relist_task
  ∧ (Sniper.pause s).stop_requested = s.stop_requested
  ∧ (Sniper.resume s).stats = s.stats
  ∧ (Sniper.resume s).targets = s.targets
  ∧ (Sniper.resume s).search_task = s.search_task
  ∧ (Sniper.resume s).relist_task = s.relist_task
  ∧ (Sniper.resume s).stop_requested = s.stop_requested :=
  ⟨rfl, rfl, rfl, rfl, rfl, rfl, rfl, rfl, rfl, rfl, rfl, rfl⟩

section BuyLoopLemmas

variable {cfg : SniperConfig} {hop : Bool} {bal : Nat → Int}
variable {buyReq : Nat → Except EAErrKind Bool}

/-- A member of a conditionally empty list is a member of the list. -/
theorem mem_ite_nil {α : Type} {c : Prop} [Decidable c] {l : List α} {x : α}
    (h : x ∈ if c then l else []) : x ∈ l := by
  split at h
  · exact h
  · simp at h

theorem buyLoop_nil (cfg : SniperConfig) (hop : Bool) (bal : Nat → Int)
    (buyReq : Nat → Except EAErrKind Bool) (k : Nat) (st : SniperStats)
    (tgt : SnipeTarget) :
    Sniper.buyLoop cfg hop bal buyReq [] k st tgt = ⟨[], false, st, tgt⟩ :=
  rfl

theorem buyLoop_cons_break {p : Player} {rest : List Player} {k : Nat}
    {st : SniperStats} {tgt : SnipeTarget}
    (h : bal k < p.buy_now_price + cfg.min_coins_reserve) :
    Sniper.buyLoop cfg hop bal buyReq (p :: rest) k st tgt
      = ⟨[.getCredits k (bal k)], false, st, tgt⟩ := by
  unfold Sniper.buyLoop
  rw [if_pos h]

theorem buyLoop_cons_success {p : Player} {rest : List Player} {k : Nat}
    {st : SniperStats} {tgt : SnipeTarget}
    (h : ¬ bal k < p.buy_now_price + cfg.min_coins_reserve)
    (hs : EAClient.buy_now (buyReq k) = true) :
    Sniper.buyLoop cfg hop bal buyReq (p :: rest) k st tgt
      = ⟨[.getCredits k (bal k), .buyNow k p.trade_id p.buy_now_price]
            ++ (if hop then [.notifyPurchase p.trade_id p.buy_now_price] else [])
            ++ (if cfg.auto_sell then [.autoSell p.trade_id] else []),
          true,
          { st with
            total_purchases := st.total_purchases + 1,
            total_spent := st.total_spent + p.buy_now_price },
          { tgt with bought := tgt.bought + 1 }⟩ := by
  unfold Sniper.buyLoop
  rw [if_neg h, if_pos hs]

theorem buyLoop_cons_fail {p : Player} {rest : List Player} {k : Nat}
    {st : SniperStats} {tgt : SnipeTarget}
    (h : ¬ bal k < p.buy_now_price + cfg.min_coins_reserve)
    (hs : EAClient.buy_now (buyReq k) = false) :
    Sniper.buyLoop cfg hop bal buyReq (p :: rest) k st tgt
      = ⟨.getCredits k (bal k) :: .buyNow k p.trade_id p.buy_now_price
            :: .sleepBuyDelay cfg.buy_delay
            :: (Sniper.buyLoop cfg hop bal buyReq rest (k + 1)
                { st with failed_purchases := st.failed_purchases + 1 } tgt).events,
          (Sniper.buyLoop cfg hop bal buyReq rest (k + 1)
            { st with failed_purchases := st.failed_purchases + 1 } tgt).bought,
          (Sniper.buyLoop cfg hop bal buyReq rest (k + 1)
            { st with failed_purchases := st.failed_purchases + 1 } tgt).stats,
          (Sniper.buyLoop cfg hop bal buyReq rest (k + 1)
            { st with failed_purchases := st.failed_purchases + 1 } tgt).target⟩ := by
  conv_lhs => rw [Sniper.buyLoop]
  rw [if_neg h, if_neg (by simp [hs])]

/-- Every buy call recorded by the candidate loop targets the candidate
at its step index, with its exact buy-now price, was preceded by a
balance check at the same index, and every candidate up to that index
passed the reserve check. -/
theorem buyLoop_buyNow_sound (cfg : SniperConfig) (hop : Bool)
    (bal : Nat → Int) (buyReq : Nat → Except EAErrKind Bool) :
    ∀ (cands : List Player) (k : Nat) (st : SniperStats) (tgt : SnipeTarget)
      (i : Nat) (tid price : Int),
      Ev.buyNow i tid price ∈ (Sniper.buyLoop cfg hop bal buyReq cands k st tgt).events →
      k ≤ i
      ∧ (∃ p, cands[i - k]? = some p ∧ tid = p.trade_id ∧ price = p.buy_now_price)
      ∧ Ev.getCredits i (bal i) ∈ (Sniper.buyLoop cfg hop bal buyReq cands k st tgt).events
      ∧ ∀ j, k ≤ j → j ≤ i → ∀ q, cands[j - k]? = some q →
          q.buy_now_price + cfg.min_coins_reserve ≤ bal j := by
  intro cands
  induction cands with
  | nil =>
    intro k st tgt i tid price hmem
    rw [buyLoop_nil] at hmem
    simp at hmem
  | cons p rest ih =>
    intro k st tgt i tid price hmem
    by_cases hb : bal k < p.buy_now_price + cfg.min_coins_reserve
    · rw [buyLoop_cons_break hb] at hmem
      simp at hmem
    · by_cases hs : EAClient.buy_now (buyReq k) = true
      · rw [buyLoop_cons_success hb hs] at hmem ⊢
        have hmain : i = k ∧ tid = p.trade_id ∧ price = p.buy_now_price := by
          rcases List.mem_append.1 hmem with h12 | h2
          · rcases List.mem_append.1 h12 with h0 | h1
            · simpa using h0
            · have h1' := mem_ite_nil h1
              simp at h1'
          · have h2' := mem_ite_nil h2
            simp at h2'
        obtain ⟨hik, htid, hprice⟩ := hmain
        subst hik htid hprice
        refine ⟨le_refl _, ⟨p, by simp, rfl, rfl⟩, by simp, ?_⟩
        intro j hj1 hj2 q hq
        have hjk : j = i := le_antisymm hj2 hj1
        subst hjk
        simp at hq
        subst hq
        omega
      · have hs' : EAClient.buy_now (buyReq k) = false := by
          cases hEq : EAClient.buy_now (buyReq k)
          · rfl
          · exact absurd hEq hs
        rw [buyLoop_cons_fail hb hs'] at hmem ⊢
        simp only [List.mem_cons] at hmem
        rcases hmem with h1 | h1 | h1 | h1
        · simp at h1
        · obtain ⟨hik, htid, hprice⟩ := by simpa using h1
          subst hik htid hprice
          refine ⟨le_refl _, ⟨p, by simp, rfl, rfl⟩, by simp, ?_⟩
          intro j hj1 hj2 q hq
          have hjk : j = i := le_antisymm hj2 hj1
          subst hjk
          simp at hq
          subst hq
          omega
        · simp at h1
        · obtain ⟨hki, ⟨p', hp', htid, hprice⟩, hcred, hall⟩ :=
            ih (k + 1) { st with failed_purchases := st.failed_purchases + 1 } tgt i tid price h1
          have hik : k ≤ i := by omega
          refine ⟨hik, ⟨p', ?_, htid, hprice⟩, ?_, ?_⟩
          · have hidx : i - k = (i - (k + 1)) + 1 := by omega
            rw [hidx, List.getElem?_cons_succ]
            exact hp'
          · exact List.mem_cons_of_mem _ (List.mem_cons_of_mem _ (List.mem_cons_of_mem _ hcred))
          · intro j hj1 hj2 q hq
            by_cases hjk : j = k
            · subst hjk
              simp at hq
              subst hq
              omega
            · have hj1' : k + 1 ≤ j := by omega
              have hidx : j - k = (j - (k + 1)) + 1 := by omega
              rw [hidx, List.getElem?_cons_succ] at hq
              exact hall j hj1' hj2 q hq

end BuyLoopLemmas

section BuyLoopMore

/-- Statistics accounting of the candidate loop: the purchase counter
grows by one exactly when the loop reports a purchase; each recorded buy
call is either the single success or a counted failed purchase; the
search counter is untouched; and nothing is spent when nothing was
bought. -/
theorem buyLoop_stats (cfg : SniperConfig) (hop : Bool) (bal : Nat → Int)
    (buyReq : Nat → Except EAErrKind Bool) :
    ∀ (cands : List Player) (k : Nat) (st : SniperStats) (tgt : SnipeTarget),
      (Sniper.buyLoop cfg hop bal buyReq cands k st tgt).stats.total_purchases
          = st.total_purchases
            + (if (Sniper.buyLoop cfg hop bal buyReq cands k st tgt).bought then 1 else 0)
      ∧ (Sniper.buyLoop cfg hop bal buyReq cands k st tgt).stats.failed_purchases
            + (if (Sniper.buyLoop cfg hop bal buyReq cands k st tgt).bought then 1 else 0)
          = st.failed_purchases
            + numBuys (Sniper.buyLoop cfg hop bal buyReq cands k st tgt).events
      ∧ (Sniper.buyLoop cfg hop bal buyReq cands k st tgt).stats.total_searches
          = st.total_searches
      ∧ ((Sniper.buyLoop cfg hop bal buyReq cands k st tgt).bought = false →
          (Sniper.buyLoop cfg hop bal buyReq cands k st tgt).stats.total_spent
            = st.total_spent) := by
  intro cands
  induction cands with
  | nil =>
    intro k st tgt
    rw [buyLoop_nil]
    simp [numBuys]
  | cons p rest ih =>
    intro k st tgt
    by_cases hb : bal k < p.buy_now_price + cfg.min_coins_reserve
    · rw [buyLoop_cons_break hb]
      simp [numBuys]
    · by_cases hs : EAClient.buy_now (buyReq k) = true
      · rw [buyLoop_cons_success hb hs]
        rcases Bool.eq_false_or_eq_true hop with hh | hh <;>
          rcases Bool.eq_false_or_eq_true cfg.auto_sell with ha | ha <;>
            simp [hh, ha, numBuys, List.countP_append, List.countP_cons,
              List.countP_nil]
      · have hs' : EAClient.buy_now (buyReq k) = false := by
          cases hEq : EAClient.buy_now (buyReq k)
          · rfl
          · exact absurd hEq hs
        rw [buyLoop_cons_fail hb hs']
        obtain ⟨ih1, ih2, ih3, ih4⟩ :=
          ih (k + 1) { st with failed_purchases := st.failed_purchases + 1 } tgt
        refine ⟨by simpa using ih1, ?_, by simpa using ih3, by simpa using ih4⟩
        simp only [numBuys, List.countP_cons] at ih2 ⊢
        simp at ih2 ⊢
        omega

/-- The pause sleep never occurs inside the candidate loop's trace. -/
theorem buyLoop_no_pause (cfg : SniperConfig) (hop : Bool) (bal : Nat → Int)
    (buyReq : Nat → Except EAErrKind Bool) :
    ∀ (cands : List Player) (k : Nat) (st : SniperStats) (tgt : SnipeTarget)
      (d : ℚ),
      Ev.sleepPause d ∉ (Sniper.buyLoop cfg hop bal buyReq cands k st tgt).events := by
  intro cands
  induction cands with
  | nil =>
    intro k st tgt d hmem
    rw [buyLoop_nil] at hmem
    simp at hmem
  | cons p rest ih =>
    intro k st tgt d hmem
    by_cases hb : bal k < p.buy_now_price + cfg.min_coins_reserve
    · rw [buyLoop_cons_break hb] at hmem
      simp at hmem
    · by_cases hs : EAClient.buy_now (buyReq k) = true
      · rw [buyLoop_cons_success hb hs] at hmem
        rcases List.mem_append.1 hmem with h12 | h2
        · rcases List.mem_append.1 h12 with h0 | h1
          · simp at h0
          · have h1' := mem_ite_nil h1
            simp at h1'
        · have h2' := mem_ite_nil h2
          simp at h2'
      · have hs' : EAClient.buy_now (buyReq k) = false := by
          cases hEq : EAClient.buy_now (buyReq k)
          · rfl
          · exact absurd hEq hs
        rw [buyLoop_cons_fail hb hs'] at hmem
        rcases List.mem_cons.1 hmem with h0 | hmem1
        · simp at h0
        rcases List.mem_cons.1 hmem1 with h0 | hmem2
        · simp at h0
        rcases List.mem_cons.1 hmem2 with h0 | hmem3
        · simp at h0
        exact ih (k + 1) _ tgt d hmem3

/-- The candidate loop depends on the buy-request oracle only through
`EAClient.buy_now`. -/
theorem buyLoop_congr (cfg : SniperConfig) (hop : Bool) (bal : Nat → Int)
    {req1 req2 : Nat → Except EAErrKind Bool}
    (h : ∀ j, EAClient.buy_now (req1 j) = EAClient.buy_now (req2 j)) :
    ∀ (cands : List Player) (k : Nat) (st : SniperStats) (tgt : SnipeTarget),
      Sniper.buyLoop cfg hop bal req1 cands k st tgt
        = Sniper.buyLoop cfg hop bal req2 cands k st tgt := by
  intro cands
  induction cands with
  | nil =>
    intro k st tgt
    rw [buyLoop_nil, buyLoop_nil]
  | cons p rest ih =>
    intro k st tgt
    by_cases hb : bal k < p.buy_now_price + cfg.min_coins_reserve
    · rw [buyLoop_cons_break hb, buyLoop_cons_break hb]
    · by_cases hs : EAClient.buy_now (req1 k) = true
      · rw [buyLoop_cons_success hb hs, buyLoop_cons_success hb ((h k).symm.trans hs)]
      · have hs1 : EAClient.buy_now (req1 k) = false := by
          cases hEq : EAClient.buy_now (req1 k)
          · rfl
          · exact absurd hEq hs
        have hs2 : EAClient.buy_now (req2 k) = false := (h k).symm.trans hs1
        rw [buyLoop_cons_fail hb hs1, buyLoop_cons_fail hb hs2, ih]

/-- When the candidate loop reports a purchase, there is a single
successful buy call: it pays the price recorded in the spend total, is
followed by the purchase notification (when a callback is registered)
and by the auto-sell step (when enabled), and no later buy call exists
in the trace. -/
theorem buyLoop_success (cfg : SniperConfig) (hop : Bool) (bal : Nat → Int)
    (buyReq : Nat → Except EAErrKind Bool) :
    ∀ (cands : List Player) (k : Nat) (st : SniperStats) (tgt : SnipeTarget),
      (Sniper.buyLoop cfg hop bal buyReq cands k st tgt).bought = true →
      ∃ i tid price,
        k ≤ i
        ∧ Ev.buyNow i tid price ∈ (Sniper.buyLoop cfg hop bal buyReq cands k st tgt).events
        ∧ (Sniper.buyLoop cfg hop bal buyReq cands k st tgt).stats.total_spent
            = st.total_spent + price
        ∧ (hop = true →
            Ev.notifyPurchase tid price ∈ (Sniper.buyLoop cfg hop bal buyReq cands k st tgt).events)
        ∧ (cfg.auto_sell = true →
            Ev.autoSell tid ∈ (Sniper.buyLoop cfg hop bal buyReq cands k st tgt).events)
        ∧ ∀ j tid2 price2,
            Ev.buyNow j tid2 price2 ∈ (Sniper.buyLoop cfg hop bal buyReq cands k st tgt).events →
            j ≤ i := by
  intro cands
  induction cands with
  | nil =>
    intro k st tgt hbt
    rw [buyLoop_nil] at hbt
    simp at hbt
  | cons p rest ih =>
    intro k st tgt hbt
    by_cases hb : bal k < p.buy_now_price + cfg.min_coins_reserve
    · rw [buyLoop_cons_break hb] at hbt
      simp at hbt
    · by_cases hs : EAClient.buy_now (buyReq k) = true
      · rw [buyLoop_cons_success hb hs]
        refine ⟨k, p.trade_id, p.buy_now_price, le_refl _, by simp, by simp, ?_, ?_, ?_⟩
        · intro hh
          rw [hh]
          simp
        · intro hh
          rw [hh]
          simp
        · intro j tid2 price2 hmem2
          rcases List.mem_append.1 hmem2 with h12 | h2
          · rcases List.mem_append.1 h12 with h0 | h1
            · have h0' : j = k ∧ tid2 = p.trade_id ∧ price2 = p.buy_now_price := by
                simpa using h0
              omega
            · have h1' := mem_ite_nil h1
              simp at h1'
          · have h2' := mem_ite_nil h2
            simp at h2'
      · have hs' : EAClient.buy_now (buyReq k) = false := by
          cases hEq : EAClient.buy_now (buyReq k)
          · rfl
          · exact absurd hEq hs
        rw [buyLoop_cons_fail hb hs'] at hbt ⊢
        have hbt' : (Sniper.buyLoop cfg hop bal buyReq rest (k + 1)
            { st with failed_purchases := st.failed_purchases + 1 } tgt).bought = true := by
          simpa using hbt
        obtain ⟨i, tid, price, hki, hmem, hspent, hnot, hauto, hmax⟩ :=
          ih (k + 1) { st with failed_purchases := st.failed_purchases + 1 } tgt hbt'
        refine ⟨i, tid, price, by omega, ?_, ?_, ?_, ?_, ?_⟩
        · exact List.mem_cons_of_mem _ (List.mem_cons_of_mem _ (List.mem_cons_of_mem _ hmem))
        · simpa using hspent
        · intro hh
          exact List.mem_cons_of_mem _ (List.mem_cons_of_mem _ (List.mem_cons_of_mem _ (hnot hh)))
        · intro hh
          exact List.mem_cons_of_mem _ (List.mem_cons_of_mem _ (List.mem_cons_of_mem _ (hauto hh)))
        · intro j tid2 price2 hmem2
          rcases List.mem_cons.1 hmem2 with h0 | hmem2a
          · simp at h0
          rcases List.mem_cons.1 hmem2a with h0 | hmem2b
          · have h0' : j = k ∧ tid2 = p.trade_id ∧ price2 = p.buy_now_price := by
              simpa using h0
            omega
          rcases List.mem_cons.1 hmem2b with h0 | hmem2c
          · simp at h0
          exact hmax j tid2 price2 hmem2c

end BuyLoopMore

section CycleLemmas

/-- Unfolding of `Sniper.search_and_buy`. -/
theorem search_and_buy_def (cfg : SniperConfig) (hop : Bool) (bal : Nat → Int)
    (buyReq : Nat → Except EAErrKind Bool) (players : List Player)
    (st : SniperStats) (tgt : SnipeTarget) :
    Sniper.search_and_buy cfg hop bal buyReq players st tgt
      = if players.isEmpty then
          ⟨[], false, { st with total_searches := st.total_searches + 1 },
            { tgt with searches := tgt.searches + 1 }⟩
        else
          Sniper.buyLoop cfg hop bal buyReq
            (Sniper.snipeListings players tgt.max_buy_price) 0
            { st with total_searches := st.total_searches + 1 }
            (if (Sniper.snipeListings players tgt.max_buy_price).isEmpty then
              { tgt with searches := tgt.searches + 1 }
            else
              { tgt with
                searches := tgt.searches + 1,
                found := tgt.found + (Sniper.snipeListings players tgt.max_buy_price).length }) :=
  rfl

/-- Unfolding of `Sniper.searchLoopStep`. -/
theorem searchLoopStep_def (cfg : SniperConfig) (hop : Bool) (bal : Nat → Int)
    (buyReq : Nat → Except EAErrKind Bool) (players : List Player)
    (st : SniperStats) (tgt : SnipeTarget) (consecutive : Nat) :
    Sniper.searchLoopStep cfg hop bal buyReq players st tgt consecutive
      = if (Sniper.search_and_buy cfg hop bal buyReq players st tgt).bought then
          if cfg.pause_after_purchases ≤ consecutive + 1 then
            ⟨(Sniper.search_and_buy cfg hop bal buyReq players st tgt).events
                ++ [.sleepPause cfg.pause_duration,
                    .sleepSearchInterval cfg.search_interval],
              (Sniper.search_and_buy cfg hop bal buyReq players st tgt).bought,
              (Sniper.search_and_buy cfg hop bal buyReq players st tgt).stats,
              (Sniper.search_and_buy cfg hop bal buyReq players st tgt).target, 0⟩
          else
            ⟨(Sniper.search_and_buy cfg hop bal buyReq players st tgt).events
                ++ [.sleepSearchInterval cfg.search_interval],
              (Sniper.search_and_buy cfg hop bal buyReq players st tgt).bought,
              (Sniper.search_and_buy cfg hop bal buyReq players st tgt).stats,
              (Sniper.search_and_buy cfg hop bal buyReq players st tgt).target,
              consecutive + 1⟩
        else
          ⟨(Sniper.search_and_buy cfg hop bal buyReq players st tgt).events
              ++ [.sleepSearchInterval cfg.search_interval],
            (Sniper.search_and_buy cfg hop bal buyReq players st tgt).bought,
            (Sniper.search_and_buy cfg hop bal buyReq players st tgt).stats,
            (Sniper.search_and_buy cfg hop bal buyReq players st tgt).target,
            consecutive⟩ :=
  rfl

/-- The pause sleep never occurs in a cycle's trace. -/
theorem search_and_buy_no_pause (cfg : SniperConfig) (hop : Bool)
    (bal : Nat → Int) (buyReq : Nat → Except EAErrKind Bool)
    (players : List Player) (st : SniperStats) (tgt : SnipeTarget) (d : ℚ) :
    Ev.sleepPause d ∉ (Sniper.search_and_buy cfg hop bal buyReq players st tgt).events := by
  rw [search_and_buy_def]
  by_cases hp : players.isEmpty
  · rw [if_pos hp]
    simp
  · rw [if_neg hp]
    exact buyLoop_no_pause cfg hop bal buyReq _ 0 _ _ d

end CycleLemmas

/-- Claim C1: a cycle issues a buy call only for listings whose buy-now
price is strictly positive (auction-only listings are never bought) and
at most the target's `max_buy_price`; it never attempts a purchase above
the ceiling. -/
theorem c1_buy_within_price_bounds (cfg : SniperConfig) (hop : Bool)
    (bal : Nat → Int) (buyReq : Nat → Except EAErrKind Bool)
    (players : List Player) (st : SniperStats) (tgt : SnipeTarget)
    (i : Nat) (tid price : Int)
    (hmem : Ev.buyNow i tid price
      ∈ (Sniper.search_and_buy cfg hop bal buyReq players st tgt).events) :
    0 < price ∧ price ≤ tgt.max_buy_price := by
  rw [search_and_buy_def] at hmem
  by_cases hp : players.isEmpty
  · rw [if_pos hp] at hmem
    simp at hmem
  · rw [if_neg hp] at hmem
    obtain ⟨-, ⟨p, hp', -, hprice⟩, -, -⟩ :=
      buyLoop_buyNow_sound cfg hop bal buyReq _ 0 _ _ i tid price hmem
    have hmemp : p ∈ Sniper.snipeListings players tgt.max_buy_price :=
      List.getElem?_mem hp'
    have hcond := (List.mem_filter.1 hmemp).2
    simp only [Bool.and_eq_true, decide_eq_true_eq] at hcond
    subst hprice
    exact hcond

/-- Claim C1 witness: a concrete cycle that buys the 800-coin listing,
which indeed lies strictly between 0 and the 1000-coin ceiling. -/
theorem c1_buy_within_price_bounds_witness :
    Ev.buyNow 0 7 800
      ∈ (Sniper.search_and_buy wCfg true wBal wReqOk [wPlayer] wStats wTarget).events
  ∧ (0 < (800 : Int) ∧ (800 : Int) ≤ wTarget.max_buy_price) :=
  ⟨by decide,
    c1_buy_within_price_bounds wCfg true wBal wReqOk [wPlayer] wStats wTarget
      0 7 800 (by decide)⟩

/-- Claim C2: within one cycle, every buy call at attempt index `i` was
immediately preceded by a fresh balance check at the same index, and
every candidate up to index `i` passed the reserve check; hence when the
re-checked balance drops below price plus `min_coins_reserve` at some
candidate, no buy call is issued for that candidate or any later one
(the loop breaks instead of skipping). -/
theorem c2_reserve_hard_stop (cfg : SniperConfig) (hop : Bool)
    (bal : Nat → Int) (buyReq : Nat → Except EAErrKind Bool)
    (players : List Player) (st : SniperStats) (tgt : SnipeTarget)
    (i : Nat) (tid price : Int)
    (hmem : Ev.buyNow i tid price
      ∈ (Sniper.search_and_buy cfg hop bal buyReq players st tgt).events) :
    Ev.getCredits i (bal i)
      ∈ (Sniper.search_and_buy cfg hop bal buyReq players st tgt).events
  ∧ ∀ j, j ≤ i → ∀ q, (Sniper.snipeListings players tgt.max_buy_price)[j]? = some q →
      q.buy_now_price + cfg.min_coins_reserve ≤ bal j := by
  rw [search_and_buy_def] at hmem ⊢
  by_cases hp : players.isEmpty
  · rw [if_pos hp] at hmem
    simp at hmem
  · rw [if_neg hp] at hmem ⊢
    obtain ⟨-, -, hcred, hall⟩ :=
      buyLoop_buyNow_sound cfg hop bal buyReq _ 0 _ _ i tid price hmem
    refine ⟨hcred, ?_⟩
    intro j hj q hq
    exact hall j (Nat.zero_le j) hj q (by simpa using hq)

/-- Claim C2 witness: in the concrete one-candidate cycle, the buy call
at index 0 is preceded by a passing balance check. -/
theorem c2_reserve_hard_stop_witness :
    Ev.buyNow 0 7 800
      ∈ (Sniper.search_and_buy wCfg true wBal wReqOk [wPlayer] wStats wTarget).events
  ∧ (Ev.getCredits 0 (wBal 0)
      ∈ (Sniper.search_and_buy wCfg true wBal wReqOk [wPlayer] wStats wTarget).events
    ∧ ∀ j, j ≤ 0 → ∀ q, (Sniper.snipeListings [wPlayer] wTarget.max_buy_price)[j]? = some q →
        q.buy_now_price + wCfg.min_coins_reserve ≤ wBal j) :=
  ⟨by decide,
    c2_reserve_hard_stop wCfg true wBal wReqOk [wPlayer] wStats wTarget
      0 7 800 (by decide)⟩

/-- Claim C5: one cycle makes at most one successful purchase; the
purchase counter grows by one exactly when the cycle reports a purchase,
and on the first successful buy the spend total grows by that price, the
purchase notification fires (when a callback is registered), auto-sell
is invoked (when enabled), and no later buy attempt occurs in the same
cycle. -/
theorem c5_one_purchase_per_cycle (cfg : SniperConfig) (hop : Bool)
    (bal : Nat → Int) (buyReq : Nat → Except EAErrKind Bool)
    (players : List Player) (st : SniperStats) (tgt : SnipeTarget) :
    (Sniper.search_and_buy cfg hop bal buyReq players st tgt).stats.total_purchases
      = st.total_purchases
        + (if (Sniper.search_and_buy cfg hop bal buyReq players st tgt).bought then 1 else 0)
  ∧ ((Sniper.search_and_buy cfg hop bal buyReq players st tgt).bought = true →
      ∃ i tid price,
        Ev.buyNow i tid price
            ∈ (Sniper.search_and_buy cfg hop bal buyReq players st tgt).events
        ∧ (Sniper.search_and_buy cfg hop bal buyReq players st tgt).stats.total_spent
            = st.total_spent + price
        ∧ (hop = true → Ev.notifyPurchase tid price
            ∈ (Sniper.search_and_buy cfg hop bal buyReq players st tgt).events)
        ∧ (cfg.auto_sell = true → Ev.autoSell tid
            ∈ (Sniper.search_and_buy cfg hop bal buyReq players st tgt).events)
        ∧ ∀ j tid2 price2,
            Ev.buyNow j tid2 price2
              ∈ (Sniper.search_and_buy cfg hop bal buyReq players st tgt).events →
            j ≤ i) := by
  rw [search_and_buy_def]
  by_cases hp : players.isEmpty
  · rw [if_pos hp]
    constructor
    · simp
    · intro h
      simp at h
  · rw [if_neg hp]
    refine ⟨?_, ?_⟩
    · exact (buyLoop_stats cfg hop bal buyReq _ 0 _ _).1
    · intro hbt
      obtain ⟨i, tid, price, -, hmem, hspent, hnot, hauto, hmax⟩ :=
        buyLoop_success cfg hop bal buyReq _ 0 _ _ hbt
      exact ⟨i, tid, price, hmem, by simpa using hspent, hnot, hauto, hmax⟩

/-- Claim C5 witness: the concrete one-candidate cycle buys it and every
per-purchase effect is present. -/
theorem c5_one_purchase_per_cycle_witness :
    (Sniper.search_and_buy wCfg true wBal wReqOk [wPlayer] wStats wTarget).bought = true
  ∧ ∃ i tid price,
      Ev.buyNow i tid price
          ∈ (Sniper.search_and_buy wCfg true wBal wReqOk [wPlayer] wStats wTarget).events
      ∧ (Sniper.search_and_buy wCfg true wBal wReqOk [wPlayer] wStats wTarget).stats.total_spent
          = (wStats).total_spent + price
      ∧ (true = true → Ev.notifyPurchase tid price
          ∈ (Sniper.search_and_buy wCfg true wBal wReqOk [wPlayer] wStats wTarget).events)
      ∧ ((wCfg).auto_sell = true → Ev.autoSell tid
          ∈ (Sniper.search_and_buy wCfg true wBal wReqOk [wPlayer] wStats wTarget).events)
      ∧ ∀ j tid2 price2,
          Ev.buyNow j tid2 price2
            ∈ (Sniper.search_and_buy wCfg true wBal wReqOk [wPlayer] wStats wTarget).events →
          j ≤ i :=
  ⟨by decide,
    (c5_one_purchase_per_cycle wCfg true wBal wReqOk [wPlayer] wStats wTarget).2 (by decide)⟩

/-- Claim C9: `EAClient.buy_now` turns every raised error, including
the fatal captcha and transfer-ban conditions, into a plain `false`; a
fatal request outcome during a buy attempt is indistinguishable at the
loop level from an ordinary failed purchase (so it cannot move the
engine to the error state or halt the loop), and every failed attempt is
counted in `failed_purchases`. -/
theorem c9_buy_errors_absorbed :
    (∀ e : EAErrKind, EAClient.buy_now (Except.error e) = false)
  ∧ (∀ (cfg : SniperConfig) (hop : Bool) (bal : Nat → Int)
       (reqs : Nat → Except EAErrKind Bool) (players : List Player)
       (st : SniperStats) (tgt : SnipeTarget) (consecutive k : Nat) (e : EAErrKind),
       Sniper.searchLoopStep cfg hop bal (Function.update reqs k (Except.error e))
           players st tgt consecutive
         = Sniper.searchLoopStep cfg hop bal (Function.update reqs k (Except.ok false))
             players st tgt consecutive)
  ∧ (∀ (cfg : SniperConfig) (hop : Bool) (bal : Nat → Int)
       (reqs : Nat → Except EAErrKind Bool) (players : List Player)
       (st : SniperStats) (tgt : SnipeTarget),
       (Sniper.search_and_buy cfg hop bal reqs players st tgt).stats.failed_purchases
           + (if (Sniper.search_and_buy cfg hop bal reqs players st tgt).bought then 1 else 0)
         = st.failed_purchases
           + numBuys (Sniper.search_and_buy cfg hop bal reqs players st tgt).events) := by
  refine ⟨fun e => rfl, ?_, ?_⟩
  · intro cfg hop bal reqs players st tgt consecutive k e
    have hcongr : ∀ j, EAClient.buy_now (Function.update reqs k (Except.error e) j)
        = EAClient.buy_now (Function.update reqs k (Except.ok false) j) := by
      intro j
      by_cases hj : j = k
      · subst hj
        rw [Function.update_same, Function.update_same]
        rfl
      · rw [Function.update_noteq hj, Function.update_noteq hj]
    have hsb : Sniper.search_and_buy cfg hop bal
        (Function.update reqs k (Except.error e)) players st tgt
        = Sniper.search_and_buy cfg hop bal
          (Function.update reqs k (Except.ok false)) players st tgt := by
      rw [search_and_buy_def, search_and_buy_def]
      by_cases hp : players.isEmpty
      · rw [if_pos hp, if_pos hp]
      · rw [if_neg hp, if_neg hp,
          buyLoop_congr cfg hop bal hcongr]
    rw [searchLoopStep_def, searchLoopStep_def, hsb]
  · intro cfg hop bal reqs players st tgt
    rw [search_and_buy_def]
    by_cases hp : players.isEmpty
    · rw [if_pos hp]
      simp [numBuys]
    · rw [if_neg hp]
      exact (buyLoop_stats cfg hop bal reqs _ 0 _ _).2.1

/-- Claim C6: in a search-loop iteration, when the cycle bought and the
consecutive-purchase streak reaches `pause_after_purchases`, exactly one
cooldown sleep of `pause_duration` occurs before the next iteration and
the streak is reset to zero right after it; below the threshold or
without a purchase no cooldown sleep occurs and the streak is
incremented or kept, respectively. -/
theorem c6_cooldown_after_streak (cfg : SniperConfig) (hop : Bool)
    (bal : Nat → Int) (buyReq : Nat → Except EAErrKind Bool)
    (players : List Player) (st : SniperStats) (tgt : SnipeTarget)
    (consecutive : Nat) :
    ((Sniper.search_and_buy cfg hop bal buyReq players st tgt).bought = true →
      cfg.pause_after_purchases ≤ consecutive + 1 →
      List.count (Ev.sleepPause cfg.pause_duration)
          (Sniper.searchLoopStep cfg hop bal buyReq players st tgt consecutive).events = 1
      ∧ (Sniper.searchLoopStep cfg hop bal buyReq players st tgt consecutive).consecutive = 0)
  ∧ ((Sniper.search_and_buy cfg hop bal buyReq players st tgt).bought = true →
      consecutive + 1 < cfg.pause_after_purchases →
      List.count (Ev.sleepPause cfg.pause_duration)
          (Sniper.searchLoopStep cfg hop bal buyReq players st tgt consecutive).events = 0
      ∧ (Sniper.searchLoopStep cfg hop bal buyReq players st tgt consecutive).consecutive
          = consecutive + 1)
  ∧ ((Sniper.search_and_buy cfg hop bal buyReq players st tgt).bought = false →
      List.count (Ev.sleepPause cfg.pause_duration)
          (Sniper.searchLoopStep cfg hop bal buyReq players st tgt consecutive).events = 0
      ∧ (Sniper.searchLoopStep cfg hop bal buyReq players st tgt consecutive).consecutive
          = consecutive) := by
  have hzero : List.count (Ev.sleepPause cfg.pause_duration)
      (Sniper.search_and_buy cfg hop bal buyReq players st tgt).events = 0 :=
    List.count_eq_zero.2
      (search_and_buy_no_pause cfg hop bal buyReq players st tgt cfg.pause_duration)
  refine ⟨?_, ?_, ?_⟩
  · intro h1 h2
    rw [searchLoopStep_def]
    simp only [h1, if_true, if_pos h2]
    constructor
    · rw [List.count_append, hzero]
      simp [List.count_cons]
    · trivial
  · intro h1 h2
    rw [searchLoopStep_def]
    simp only [h1, if_true, if_neg (by omega : ¬ cfg.pause_after_purchases ≤ consecutive + 1)]
    constructor
    · rw [List.count_append, hzero]
      simp [List.count_cons]
    · trivial
  · intro h1
    rw [searchLoopStep_def]
    simp only [h1, Bool.false_eq_true, if_false]
    constructor
    · rw [List.count_append, hzero]
      simp [List.count_cons]
    · trivial

/-- Claim C6 witness: with the pause threshold at 1, the concrete buying
iteration sleeps the cooldown exactly once and resets the streak. -/
theorem c6_cooldown_after_streak_witness :
    (Sniper.search_and_buy wCfg true wBal wReqOk [wPlayer] wStats wTarget).bought = true
  ∧ (wCfg).pause_after_purchases ≤ 0 + 1
  ∧ (List.count (Ev.sleepPause (wCfg).pause_duration)
        (Sniper.searchLoopStep wCfg true wBal wReqOk [wPlayer] wStats wTarget 0).events = 1
     ∧ (Sniper.searchLoopStep wCfg true wBal wReqOk [wPlayer] wStats wTarget 0).consecutive = 0) :=
  ⟨by decide, by decide,
    (c6_cooldown_after_streak wCfg true wBal wReqOk [wPlayer] wStats wTarget 0).1
      (by decide) (by decide)⟩

section RegistryLemmas

theorem insertDesc_nil {α : Type} (key : α → Int) (x : α) :
    insertDesc key x [] = [x] :=
  rfl

theorem insertDesc_cons {α : Type} (key : α → Int) (x a : α) (t : List α) :
    insertDesc key x (a :: t)
      = if key x ≤ key a then a :: insertDesc key x t else x :: a :: t :=
  rfl

theorem mem_insertDesc {α : Type} (key : α → Int) (x y : α) :
    ∀ l : List α, y ∈ insertDesc key x l ↔ y = x ∨ y ∈ l := by
  intro l
  induction l with
  | nil =>
    rw [insertDesc_nil]
    simp
  | cons a t ih =>
    rw [insertDesc_cons]
    split
    · simp only [List.mem_cons, ih]
      tauto
    · simp only [List.mem_cons]

theorem insertDesc_append_of_ge {α : Type} (key : α → Int) (x : α) :
    ∀ l : List α, (∀ a ∈ l, key x ≤ key a) → insertDesc key x l = l ++ [x] := by
  intro l
  induction l with
  | nil =>
    intro _
    rfl
  | cons a t ih =>
    intro h
    rw [insertDesc_cons, if_pos (h a (by simp)), ih (fun b hb => h b (by simp [hb]))]
    rfl

theorem sortDesc_append_singleton {α : Type} (key : α → Int) (l : List α) (x : α) :
    sortDesc key (l ++ [x]) = insertDesc key x (sortDesc key l) := by
  unfold sortDesc
  rw [List.foldl_append]
  rfl

theorem sortDesc_eq_self {α : Type} (key : α → Int) :
    ∀ l : List α, l.Pairwise (fun a b => key b ≤ key a) → sortDesc key l = l := by
  intro l
  induction l using List.reverseRecOn with
  | nil =>
    intro _
    rfl
  | append_singleton l x ih =>
    intro h
    obtain ⟨h1, -, h3⟩ := List.pairwise_append.1 h
    rw [sortDesc_append_singleton, ih h1]
    exact insertDesc_append_of_ge key x l (fun a ha => h3 a ha x (by simp))

theorem insertDesc_pairwise_regOrd (x : Nat × SnipeTarget) :
    ∀ l : List (Nat × SnipeTarget), l.Pairwise regOrd →
      (∀ y ∈ l, y.1 < x.1) →
      (insertDesc (fun u => u.2.priority) x l).Pairwise regOrd := by
  intro l
  induction l with
  | nil =>
    intro _ _
    rw [insertDesc_nil]
    simp
  | cons a t ih =>
    intro hp hx
    obtain ⟨ha, ht⟩ := List.pairwise_cons.1 hp
    rw [insertDesc_cons]
    split
    · rename_i hle
      refine List.pairwise_cons.2 ⟨?_, ih ht (fun y hy => hx y (by simp [hy]))⟩
      intro y hy
      rcases (mem_insertDesc _ x y t).1 hy with rfl | hy'
      · rcases lt_or_eq_of_le hle with hlt | heq
        · exact Or.inl hlt
        · exact Or.inr ⟨heq.symm, hx a (by simp)⟩
      · exact ha y hy'
    · rename_i hgt
      have hlt : a.2.priority < x.2.priority := lt_of_not_le hgt
      refine List.pairwise_cons.2 ⟨?_, hp⟩
      intro y hy
      rcases List.mem_cons.1 hy with rfl | hy'
      · exact Or.inl hlt
      · rcases ha y hy' with h' | h'
        · exact Or.inl (lt_trans h' hlt)
        · have : y.2.priority = a.2.priority := h'.1.symm
          exact Or.inl (by omega)

theorem applyOpT_inv {s : Nat × List (Nat × SnipeTarget)} (h : RegInv s)
    (op : RegOp) : RegInv (applyOpT s op) := by
  obtain ⟨n, ts⟩ := s
  obtain ⟨hp, htag⟩ := h
  cases op with
  | add t =>
    have hdesc : ts.Pairwise
        (fun a b => (fun u : Nat × SnipeTarget => u.2.priority) b
          ≤ (fun u : Nat × SnipeTarget => u.2.priority) a) := by
      refine hp.imp ?_
      intro a b hab
      rcases hab with h' | h'
      · exact le_of_lt h'
      · exact le_of_eq h'.1.symm
    constructor
    · show (sortDesc _ (ts ++ [(n, t)])).Pairwise regOrd
      rw [sortDesc_append_singleton, sortDesc_eq_self _ ts hdesc]
      exact insertDesc_pairwise_regOrd (n, t) ts hp htag
    · intro y hy
      show y.1 < n + 1
      have hy2 : y ∈ insertDesc (fun u : Nat × SnipeTarget => u.2.priority) (n, t) ts := by
        have he : sortDesc (fun u : Nat × SnipeTarget => u.2.priority) (ts ++ [(n, t)])
            = insertDesc (fun u : Nat × SnipeTarget => u.2.priority) (n, t) ts := by
          rw [sortDesc_append_singleton, sortDesc_eq_self _ ts hdesc]
        rw [← he]
        exact hy
      rcases (mem_insertDesc _ _ y ts).1 hy2 with rfl | hy'
      · simp
      · exact Nat.lt_succ_of_lt (htag y hy')
  | remove name =>
    exact ⟨hp.filter _, fun y hy => htag y (List.mem_filter.1 hy).1⟩
  | clear =>
    refine ⟨List.Pairwise.nil, ?_⟩
    intro y hy
    exact absurd hy (List.not_mem_nil y)

theorem applyOpsT_inv (ops : List RegOp) : RegInv (applyOpsT ops) := by
  have key : ∀ (ops2 : List RegOp) (s : Nat × List (Nat × SnipeTarget)),
      RegInv s → RegInv (List.foldl applyOpT s ops2) := by
    intro ops2
    induction ops2 with
    | nil =>
      intro s hs
      exact hs
    | cons op rest ih =>
      intro s hs
      exact ih _ (applyOpT_inv hs op)
  exact key ops (0, []) ⟨List.Pairwise.nil, by simp⟩

theorem insertDesc_map (x : Nat × SnipeTarget) :
    ∀ l : List (Nat × SnipeTarget),
      (insertDesc (fun u => u.2.priority) x l).map Prod.snd
        = insertDesc (fun t => t.priority) x.2 (l.map Prod.snd) := by
  intro l
  induction l with
  | nil =>
    rfl
  | cons a t ih =>
    rw [insertDesc_cons]
    split
    · rename_i h
      rw [List.map_cons, ih, List.map_cons, insertDesc_cons, if_pos h]
    · rename_i h
      rw [List.map_cons, List.map_cons, insertDesc_cons, if_neg h]

theorem sortDesc_foldl_map :
    ∀ (l : List (Nat × SnipeTarget)) (acc : List (Nat × SnipeTarget)),
      (List.foldl (fun acc2 x => insertDesc (fun u : Nat × SnipeTarget => u.2.priority) x acc2) acc l).map Prod.snd
        = List.foldl (fun acc2 x => insertDesc (fun t : SnipeTarget => t.priority) x acc2)
            (acc.map Prod.snd) (l.map Prod.snd) := by
  intro l
  induction l with
  | nil =>
    intro acc
    rfl
  | cons a t ih =>
    intro acc
    rw [List.map_cons, List.foldl_cons, List.foldl_cons, ih, insertDesc_map]

theorem filter_name_map (nm : String) :
    ∀ ts : List (Nat × SnipeTarget),
      (ts.filter fun u => u.2.name != nm).map Prod.snd
        = (ts.map Prod.snd).filter fun t => t.name != nm := by
  intro ts
  induction ts with
  | nil =>
    rfl
  | cons a t ih =>
    rw [List.filter_cons]
    split
    · rename_i h
      rw [List.map_cons, List.map_cons, List.filter_cons, if_pos h, ih]
    · rename_i h
      rw [List.map_cons, List.filter_cons, if_neg h, ih]

theorem applyOpT_map (s : Nat × List (Nat × SnipeTarget)) (op : RegOp) :
    (applyOpT s op).2.map Prod.snd = applyOp (s.2.map Prod.snd) op := by
  obtain ⟨n, ts⟩ := s
  cases op with
  | add t =>
    show (sortDesc (fun u : Nat × SnipeTarget => u.2.priority) (ts ++ [(n, t)])).map Prod.snd
      = Sniper.add_target (ts.map Prod.snd) t
    unfold Sniper.add_target sortDesc
    rw [sortDesc_foldl_map (ts ++ [(n, t)]) [], List.map_append]
    rfl
  | remove nm =>
    exact filter_name_map nm ts
  | clear =>
    rfl

theorem applyOpsT_map (ops : List RegOp) :
    (applyOpsT ops).2.map Prod.snd = applyOps ops := by
  have key : ∀ (ops2 : List RegOp) (s : Nat × List (Nat × SnipeTarget)),
      (List.foldl applyOpT s ops2).2.map Prod.snd
        = List.foldl applyOp (s.2.map Prod.snd) ops2 := by
    intro ops2
    induction ops2 with
    | nil =>
      intro s
      rfl
    | cons op rest ih =>
      intro s
      rw [List.foldl_cons, List.foldl_cons, ih, applyOpT_map]
  exact key ops (0, [])

end RegistryLemmas

/-- Claim C7: after any sequence of add and remove operations the target
list is sorted by descending priority with ties in insertion order (the
instrumented run, whose payloads coincide with the registry's list, is
pairwise in the registry order), and adding priorities A1, B5, C5 in
that order yields the list B, C, A. -/
theorem c7_registry_priority_order (ops : List RegOp) :
    (applyOpsT ops).2.Pairwise regOrd
  ∧ (applyOpsT ops).2.map Prod.snd = applyOps ops
  ∧ (applyOps [RegOp.add targetA, RegOp.add targetB, RegOp.add targetC]).map SnipeTarget.name
      = ["B", "C", "A"] :=
  ⟨(applyOpsT_inv ops).1, applyOpsT_map ops, by decide⟩
